import Mathlib

/-!
Shallow embedding of the CPU benchmark harness in src/main.py.

Conventions of the embedding:
* Python floats are modelled as real numbers, Python ints as integers or
  naturals, durations and clock readings as rationals.
* time.perf_counter is modelled by a function clock : ℕ → ℚ giving the
  reading returned by the n-th perf_counter call made by the function under
  study (call 0 is the start reading).
* random.random and random.randint are modelled by streams of drawn values
  indexed by the position in the generator stream; each loop iteration
  consumes the three draws at positions 3*ops, 3*ops+1, 3*ops+2.
* the while loops carry explicit fuel; a run that has not exited when the
  fuel runs out is none, so theorems about a completed run are conditioned
  on the result being some value.
* the per-iteration value result, which the Python code computes and then
  discards, is additionally accumulated in a ghost trace so that theorems
  can speak about what each operation computed.
-/

namespace Bench

/-- Body of one benchmark_math operation (src/main.py lines 34-41), applied
to the three draws a, b, c. The try/except ValueError around the whole
arithmetic expression replaces the ENTIRE expression by 0 when math.log
raises, which happens exactly when its argument a + 1 is non-positive;
afterwards math.pow(result, 1.5) is applied only when result > 0, else the
final result is 0. -/
noncomputable def mathOp (a b c : ℝ) : ℝ :=
  let result : ℝ :=
    if 0 < a + 1 then Real.sqrt (a ^ 2 + b ^ 2) + Real.sin c + Real.log (a + 1)
    else 0
  if 0 < result then result ^ (1.5 : ℝ) else 0

/-- Modelled from the spec sentence cited by claim C4: when the natural-log
argument is non-positive, ONLY the logarithm term is replaced by the
fallback value 0, and the sqrt and sin terms are still computed and summed.
This is the spec-side reading, written to be compared with mathOp, which is
the code-side reading. -/
noncomputable def mathOpSpecTermwise (a b c : ℝ) : ℝ :=
  let result : ℝ :=
    Real.sqrt (a ^ 2 + b ^ 2) + Real.sin c +
      (if 0 < a + 1 then Real.log (a + 1) else 0)
  if 0 < result then result ^ (1.5 : ℝ) else 0

/-- Body of one benchmark_integer operation (src/main.py lines 60-61):
result = (a*b)+(a*c)-(b*c); result *= (a+b+c). Integer arithmetic only. -/
def intOp (a b c : ℤ) : ℤ :=
  ((a * b) + (a * c) - (b * c)) * (a + b + c)

/-- The timed loop of benchmark_math (src/main.py lines 31-44). State
arguments: fuel (iterations that may still run), i (index of the next
perf_counter call), ops (the operations counter, starting at 0), trace (the
ghost list of the discarded per-iteration results). Each iteration checks
clock i - clock 0 < duration; on exit the function returns the final count
and the actual measured elapsed time clock (i+1) - clock 0, taken by one
further perf_counter call, unclamped. -/
noncomputable def benchmark_math (clock : ℕ → ℚ) (draw : ℕ → ℝ) (duration : ℚ) :
    ℕ → ℕ → ℕ → List ℝ → Option (ℕ × ℚ × List ℝ)
  | 0, i, ops, trace =>
      if clock i - clock 0 < duration then none
      else some (ops, clock (i + 1) - clock 0, trace)
  | fuel + 1, i, ops, trace =>
      if clock i - clock 0 < duration then
        benchmark_math clock draw duration fuel (i + 1) (ops + 1)
          (trace ++ [mathOp (draw (3 * ops)) (draw (3 * ops + 1)) (draw (3 * ops + 2))])
      else some (ops, clock (i + 1) - clock 0, trace)

/-- benchmark_math entered at the top (start = clock 0, first loop check at
clock call 1, operations = 0, empty trace). -/
noncomputable def benchmark_math_run (clock : ℕ → ℚ) (draw : ℕ → ℝ)
    (duration : ℚ) (fuel : ℕ) : Option (ℕ × ℚ × List ℝ) :=
  benchmark_math clock draw duration fuel 1 0 []

/-- The timed loop of benchmark_integer (src/main.py lines 54-64), with the
same timing skeleton as benchmark_math and the integer body intOp on the
three randint draws of each iteration. -/
def benchmark_integer (clock : ℕ → ℚ) (draw : ℕ → ℤ) (duration : ℚ) :
    ℕ → ℕ → ℕ → List ℤ → Option (ℕ × ℚ × List ℤ)
  | 0, i, ops, trace =>
      if clock i - clock 0 < duration then none
      else some (ops, clock (i + 1) - clock 0, trace)
  | fuel + 1, i, ops, trace =>
      if clock i - clock 0 < duration then
        benchmark_integer clock draw duration fuel (i + 1) (ops + 1)
          (trace ++ [intOp (draw (3 * ops)) (draw (3 * ops + 1)) (draw (3 * ops + 2))])
      else some (ops, clock (i + 1) - clock 0, trace)

/-- benchmark_integer entered at the top (start = clock 0, first loop check
at clock call 1, operations = 0, empty trace). -/
def benchmark_integer_run (clock : ℕ → ℚ) (draw : ℕ → ℤ)
    (duration : ℚ) (fuel : ℕ) : Option (ℕ × ℚ × List ℤ) :=
  benchmark_integer clock draw duration fuel 1 0 []

/-- threaded_benchmark (src/main.py lines 84-95) at the point where every
worker thread has been joined: results is the shared list the workers
appended their counts to (its order is the arrival order of those appends),
elapsed is the final perf_counter reading minus the start reading. The
function sums the list and echoes num_threads back unchanged. -/
def threaded_benchmark (results : List ℕ) (elapsed : ℚ) (num_threads : ℕ) :
    ℕ × ℚ × ℕ :=
  (results.sum, elapsed, num_threads)

/-- The drain loop of multiprocess_benchmark (src/main.py lines 125-127):
while not queue.empty(): total_ops += queue.get(). The inter-process queue
is modelled by the list of already delivered counts plus a delivery
schedule: before the k-th emptiness poll, the k-th batch of still latent
counts lands at the back of the queue. An emptiness poll that sees no
delivered item ends the loop at once; none = fuel exhausted. -/
def mpDrainLoop : ℕ → List ℕ → List (List ℕ) → ℕ → Option ℕ
  | 0, _, _, _ => none
  | fuel + 1, delivered, arrivals, total =>
      match delivered ++ arrivals.headD [] with
      | [] => some total
      | x :: rest => mpDrainLoop fuel rest arrivals.tail (total + x)

/-- multiprocess_benchmark (src/main.py lines 116-129) from the point where
every worker process has been joined (so the drain runs strictly after all
joins): delivered and arrivals describe the result queue at that point, the
counts the workers put split into the already visible ones and the ones
whose delivery is still latent; elapsed is the final perf_counter reading
minus the start reading. Echoes num_processes back unchanged. Note that
multiprocessing guarantees a worker that put its count does not terminate
before its queue feeder thread has flushed the count to the underlying
pipe, and join returns only after termination, so at this post-join point
every reported count is in delivered and arrivals carries nothing. -/
def multiprocess_benchmark (fuel : ℕ) (delivered : List ℕ)
    (arrivals : List (List ℕ)) (elapsed : ℚ) (num_processes : ℕ) :
    Option (ℕ × ℚ × ℕ) :=
  (mpDrainLoop fuel delivered arrivals 0).map fun total =>
    (total, elapsed, num_processes)

/-- One value returned by a test_function call inside run_series: the (ops,
dur) pair, with the optional third component returned by the parallel
variants (src/main.py lines 147-152 branch on its presence; it does not
enter the rate). -/
structure TrialResult where
  ops : ℕ
  dur : ℚ
  workers : Option ℕ
  deriving DecidableEq

/-- The rate computed at src/main.py line 153: ops / dur if dur > 0 else 0. -/
def rateOf (t : TrialResult) : ℚ :=
  if 0 < t.dur then (t.ops : ℚ) / t.dur else 0

/-- The list named results built by the loop of run_series (src/main.py
lines 143-154): trial i models what the i-th call of test_function returns,
in chronological trial order. -/
def run_series_rates (trial : ℕ → TrialResult) (series : ℕ) : List ℚ :=
  (List.range series).map fun i => rateOf (trial i)

/-- statistics.mean as used at src/main.py line 156: the exact arithmetic
mean; raises StatisticsError (modelled none) on an empty list. -/
def statistics_mean (xs : List ℚ) : Option ℚ :=
  if xs.length = 0 then none else some (xs.sum / (xs.length : ℚ))

/-- The arithmetic mean with junk value 0 on the empty list; the some-value
of statistics_mean on a non-empty list. -/
def meanVal (xs : List ℚ) : ℚ := xs.sum / (xs.length : ℚ)

/-- The Bessel-corrected sample variance underlying statistics.stdev: the
sum of squared deviations from the mean, divided by n - 1. -/
def sampleVariance (xs : List ℚ) : ℚ :=
  (xs.map fun x => (x - meanVal xs) ^ 2).sum / ((xs.length : ℚ) - 1)

/-- statistics.stdev as used at src/main.py line 157: the square root of
the Bessel-corrected sample variance (run_series only applies it to lists
of at least 2 elements, see the guard on line 157). -/
noncomputable def statistics_stdev (xs : List ℚ) : ℝ :=
  Real.sqrt (sampleVariance xs)

/-- What run_series computes once after all its trials are done
(src/main.py lines 154-159): the list results of all rates, the avg of
line 156 and the stdev of line 157. The list is the return value of the
Python function; avg and stdev are emitted on the log. -/
structure SeriesSummary where
  samples : List ℚ
  mean : ℚ
  stdev : ℝ

/-- run_series (src/main.py lines 131-159) for a given series count. none
models the StatisticsError that statistics.mean raises at line 156 when the
series is empty; otherwise the full summary: the rate list in chronological
trial order, its mean, and statistics.stdev of it when there are at least
two samples, else 0.0 (the guard at line 157). -/
noncomputable def run_series_summary (trial : ℕ → TrialResult) (series : ℕ) :
    Option SeriesSummary :=
  let results := run_series_rates trial series
  match statistics_mean results with
  | none => none
  | some avg =>
      some ⟨results, avg, if 1 < results.length then statistics_stdev results else 0⟩

/-! ## Theorems -/

/-- Claim C4, counterexample: at the injected draws a = -1, b = 0, c = 0
the natural-log argument a + 1 = 0 is non-positive; the code (mathOp)
replaces the whole expression by 0 and the operation returns 0, while the
behaviour the claim states (mathOpSpecTermwise: only the log term falls
back to 0, the sqrt and sin terms still computed and summed) returns 1. -/
theorem c4_counterexample :
    ((-1 : ℝ) + 1 ≤ 0) ∧ mathOp (-1) 0 0 = 0 ∧ mathOpSpecTermwise (-1) 0 0 = 1 ∧
      mathOp (-1) 0 0 ≠ mathOpSpecTermwise (-1) 0 0 := by
  have h0 : mathOp (-1) 0 0 = 0 := by
    unfold mathOp
    norm_num
  have hsq : ((-1 : ℝ) ^ 2 + 0 ^ 2) = 1 := by norm_num
  have h1 : mathOpSpecTermwise (-1) 0 0 = 1 := by
    unfold mathOpSpecTermwise
    rw [hsq, Real.sqrt_one, Real.sin_zero]
    norm_num [Real.one_rpow]
  refine ⟨by norm_num, h0, h1, ?_⟩
  rw [h0, h1]
  norm_num

/-- Claim C4, amended: one FloatWorkload operation never fails for any
drawn reals, and when the natural-log argument a + 1 is non-positive the
caught ValueError makes the code substitute the fallback 0 for the ENTIRE
arithmetic expression (the sqrt and sin terms are discarded, not summed),
so the operation returns 0; no domain error is propagated. -/
theorem c4_whole_expression_fallback (a b c : ℝ) (h : a + 1 ≤ 0) :
    mathOp a b c = 0 := by
  unfold mathOp
  rw [if_neg (not_lt.mpr h)]
  norm_num

/-- Claim C4, witness: the amended theorem at the concrete injected draws
a = -1, b = 0, c = 0. -/
theorem c4_whole_expression_fallback_witness : mathOp (-1) 0 0 = 0 :=
  c4_whole_expression_fallback (-1) 0 0 (by norm_num)

/-- Helper for the drain: with no latent delivery, the drain loop returns
the running total plus the sum of everything in the queue, provided the
fuel exceeds the queue length. -/
theorem mpDrainLoop_no_latency (counts : List ℕ) :
    ∀ fuel total, counts.length < fuel →
      mpDrainLoop fuel counts [] total = some (total + counts.sum) := by
  induction counts with
  | nil =>
      intro fuel total hf
      match fuel, hf with
      | fuel + 1, _ => simp [mpDrainLoop]
  | cons x rest ih =>
      intro fuel total hf
      match fuel, hf with
      | fuel + 1, hf =>
        have hr : rest.length < fuel := by
          simpa using Nat.lt_of_succ_lt_succ hf
        simp [mpDrainLoop, ih fuel (total + x) hr]
        omega

/-- Claim C8: the drain of the isolated-memory executor runs strictly
after every worker process is confirmed joined (it is modelled from that
post-join point), and at that point the flush-before-exit guarantee of the
result channel has closed the momentary-emptiness window: a worker that
put its count does not terminate before the count reaches the pipe, and
join waits for termination, so the queue the drain starts from holds every
reported count with nothing still latent. The drain then collects all of
them: the executor's total is exactly the sum of every reported count and
no reported worker count is lost. -/
theorem c8_post_join_drain_collects_all (reported : List ℕ) (elapsed : ℚ)
    (k fuel : ℕ) (hfuel : reported.length < fuel) :
    multiprocess_benchmark fuel reported [] elapsed k =
      some (reported.sum, elapsed, k) := by
  unfold multiprocess_benchmark
  rw [mpDrainLoop_no_latency reported fuel 0 hfuel]
  simp

/-- Claim C8, witness: a concrete post-join queue holding the reported
counts 4 and 6; the drain collects both and totals 10. -/
theorem c8_post_join_drain_collects_all_witness :
    multiprocess_benchmark 3 [4, 6] [] 2 2 = some (10, 2, 2) := by
  have h := c8_post_join_drain_collects_all [4, 6] 2 2 3 (by decide)
  simpa using h

/-- Helper: on any completed run of the benchmark_math loop, the returned
elapsed time is at least the duration, because the loop only exits at a
check where the monotonic elapsed reading has reached the duration, and the
returned elapsed time comes from one further (no earlier) clock call. -/
theorem benchmark_math_elapsed (clock : ℕ → ℚ) (draw : ℕ → ℝ) (duration : ℚ)
    (hmono : ∀ m k, m ≤ k → clock m ≤ clock k) :
    ∀ fuel i ops trace n e tr,
      benchmark_math clock draw duration fuel i ops trace = some (n, e, tr) →
      duration ≤ e := by
  intro fuel
  induction fuel with
  | zero =>
      intro i ops trace n e tr h
      simp only [benchmark_math] at h
      by_cases hc : clock i - clock 0 < duration
      · rw [if_pos hc] at h
        exact absurd h (by simp)
      · rw [if_neg hc] at h
        simp only [Option.some.injEq, Prod.mk.injEq] at h
        obtain ⟨-, he, -⟩ := h
        have hstep := hmono i (i + 1) (Nat.le_succ i)
        rw [← he]
        have := not_lt.mp hc
        linarith
  | succ fuel ih =>
      intro i ops trace n e tr h
      simp only [benchmark_math] at h
      by_cases hc : clock i - clock 0 < duration
      · rw [if_pos hc] at h
        exact ih _ _ _ _ _ _ h
      · rw [if_neg hc] at h
        simp only [Option.some.injEq, Prod.mk.injEq] at h
        obtain ⟨-, he, -⟩ := h
        have hstep := hmono i (i + 1) (Nat.le_succ i)
        rw [← he]
        have := not_lt.mp hc
        linarith

/-- Helper: the same elapsed-time bound for the benchmark_integer loop,
which has the identical timing skeleton. -/
theorem benchmark_integer_elapsed (clock : ℕ → ℚ) (draw : ℕ → ℤ) (duration : ℚ)
    (hmono : ∀ m k, m ≤ k → clock m ≤ clock k) :
    ∀ fuel i ops trace n e tr,
      benchmark_integer clock draw duration fuel i ops trace = some (n, e, tr) →
      duration ≤ e := by
  intro fuel
  induction fuel with
  | zero =>
      intro i ops trace n e tr h
      simp only [benchmark_integer] at h
      by_cases hc : clock i - clock 0 < duration
      · rw [if_pos hc] at h
        exact absurd h (by simp)
      · rw [if_neg hc] at h
        simp only [Option.some.injEq, Prod.mk.injEq] at h
        obtain ⟨-, he, -⟩ := h
        have hstep := hmono i (i + 1) (Nat.le_succ i)
        rw [← he]
        have := not_lt.mp hc
        linarith
  | succ fuel ih =>
      intro i ops trace n e tr h
      simp only [benchmark_integer] at h
      by_cases hc : clock i - clock 0 < duration
      · rw [if_pos hc] at h
        exact ih _ _ _ _ _ _ h
      · rw [if_neg hc] at h
        simp only [Option.some.injEq, Prod.mk.injEq] at h
        obtain ⟨-, he, -⟩ := h
        have hstep := hmono i (i + 1) (Nat.le_succ i)
        rw [← he]
        have := not_lt.mp hc
        linarith

/-- Claim C3: for every duration d > 0 and monotone clock, whenever the
timed loop runner (either benchmark_math or benchmark_integer) completes,
the elapsed time it returns is at least d; the returned value is the raw
measurement clock (i+1) - clock 0 of the call after the failed check, never
clamped down to d. -/
theorem c3_elapsed_at_least_duration (clock : ℕ → ℚ) (drawR : ℕ → ℝ)
    (drawZ : ℕ → ℤ) (duration : ℚ) (fuel : ℕ) (_hd : 0 < duration)
    (hmono : ∀ m k, m ≤ k → clock m ≤ clock k) :
    (∀ n e tr, benchmark_math_run clock drawR duration fuel = some (n, e, tr) →
      duration ≤ e) ∧
    (∀ n e tr, benchmark_integer_run clock drawZ duration fuel = some (n, e, tr) →
      duration ≤ e) :=
  ⟨fun n e tr h => benchmark_math_elapsed clock drawR duration hmono fuel 1 0 [] n e tr h,
   fun n e tr h => benchmark_integer_elapsed clock drawZ duration hmono fuel 1 0 [] n e tr h⟩

/-- Claim C3, witness: with the clock reading n at its n-th call and
duration 1/2, both loops exit at the first check and return elapsed time 2,
which exceeds the duration (2 is the raw reading, not clamped to 1/2). -/
theorem c3_elapsed_at_least_duration_witness :
    benchmark_integer_run (fun m => (m : ℚ)) (fun _ => 1) (1/2) 5 =
        some (0, 2, ([] : List ℤ)) ∧
      (1/2 : ℚ) ≤ 2 := by
  have hrun : benchmark_integer_run (fun m => (m : ℚ)) (fun _ => 1) (1/2) 5 =
      some (0, 2, ([] : List ℤ)) := by
    norm_num [benchmark_integer_run, benchmark_integer]
  have h := c3_elapsed_at_least_duration (fun m => (m : ℚ)) (fun _ => (0 : ℝ))
    (fun _ => 1) (1/2) 5 (by norm_num)
    (fun m k hmk => by exact_mod_cast Nat.cast_le.mpr hmk)
  exact ⟨hrun, h.2 0 2 [] hrun⟩

/-- Helper: the ghost trace of the benchmark_integer loop records, for the
k-th operation, exactly intOp applied to the three consecutive randint
draws at stream positions 3k, 3k+1 and 3k+2. -/
theorem benchmark_integer_trace (clock : ℕ → ℚ) (draw : ℕ → ℤ) (duration : ℚ) :
    ∀ fuel i ops n e tr,
      benchmark_integer clock draw duration fuel i ops
          ((List.range ops).map fun k =>
            intOp (draw (3 * k)) (draw (3 * k + 1)) (draw (3 * k + 2))) =
        some (n, e, tr) →
      ops ≤ n ∧ tr = (List.range n).map fun k =>
        intOp (draw (3 * k)) (draw (3 * k + 1)) (draw (3 * k + 2)) := by
  intro fuel
  induction fuel with
  | zero =>
      intro i ops n e tr h
      simp only [benchmark_integer] at h
      by_cases hc : clock i - clock 0 < duration
      · rw [if_pos hc] at h
        exact absurd h (by simp)
      · rw [if_neg hc] at h
        simp only [Option.some.injEq, Prod.mk.injEq] at h
        obtain ⟨hn, -, htr⟩ := h
        exact ⟨le_of_eq hn, by rw [← htr, ← hn]⟩
  | succ fuel ih =>
      intro i ops n e tr h
      simp only [benchmark_integer] at h
      by_cases hc : clock i - clock 0 < duration
      · rw [if_pos hc] at h
        have hext : ((List.range ops).map fun k =>
              intOp (draw (3 * k)) (draw (3 * k + 1)) (draw (3 * k + 2))) ++
              [intOp (draw (3 * ops)) (draw (3 * ops + 1)) (draw (3 * ops + 2))] =
            (List.range (ops + 1)).map fun k =>
              intOp (draw (3 * k)) (draw (3 * k + 1)) (draw (3 * k + 2)) := by
          rw [List.range_succ, List.map_append]
          simp
        rw [hext] at h
        have := ih (i + 1) (ops + 1) n e tr h
        exact ⟨Nat.le_of_succ_le this.1, this.2⟩
      · rw [if_neg hc] at h
        simp only [Option.some.injEq, Prod.mk.injEq] at h
        obtain ⟨hn, -, htr⟩ := h
        exact ⟨le_of_eq hn, by rw [← htr, ← hn]⟩

/-- Claim C6: on any completed run of benchmark_integer, the k-th operation
used exactly the three consecutive randint draws at stream positions 3k,
3k+1 and 3k+2 (each in [1,1000] by the randint contract) and computed
exactly ((a*b)+(a*c)-(b*c))*(a+b+c) on them, in integer arithmetic (the
whole computation is typed over ℤ); the trace of computed results has one
entry per counted operation. -/
theorem c6_integer_operation (clock : ℕ → ℚ) (draw : ℕ → ℤ) (duration : ℚ)
    (fuel n : ℕ) (e : ℚ) (tr : List ℤ)
    (hdraw : ∀ k, 1 ≤ draw k ∧ draw k ≤ 1000)
    (h : benchmark_integer_run clock draw duration fuel = some (n, e, tr)) :
    tr = (List.range n).map (fun k =>
        ((draw (3 * k) * draw (3 * k + 1)) + (draw (3 * k) * draw (3 * k + 2))
            - (draw (3 * k + 1) * draw (3 * k + 2)))
          * (draw (3 * k) + draw (3 * k + 1) + draw (3 * k + 2))) ∧
      tr.length = n ∧
      ∀ k, k < n →
        (1 ≤ draw (3 * k) ∧ draw (3 * k) ≤ 1000) ∧
        (1 ≤ draw (3 * k + 1) ∧ draw (3 * k + 1) ≤ 1000) ∧
        (1 ≤ draw (3 * k + 2) ∧ draw (3 * k + 2) ≤ 1000) := by
  have h0 : benchmark_integer clock draw duration fuel 1 0
      ((List.range 0).map fun k =>
        intOp (draw (3 * k)) (draw (3 * k + 1)) (draw (3 * k + 2))) =
      some (n, e, tr) := h
  have htr := (benchmark_integer_trace clock draw duration fuel 1 0 n e tr h0).2
  refine ⟨?_, ?_, fun k _ => ⟨hdraw (3 * k), hdraw (3 * k + 1), hdraw (3 * k + 2)⟩⟩
  · rw [htr]
    simp only [intOp]
  · rw [htr, List.length_map, List.length_range]

/-- Claim C6, witness: with every draw equal to 1 and duration 2 the loop
completes one operation whose recorded result is ((1*1)+(1*1)-(1*1))*(1+1+1)
= 3. -/
theorem c6_integer_operation_witness :
    benchmark_integer_run (fun m => (m : ℚ)) (fun _ => 1) 2 5 =
        some (1, 3, ([3] : List ℤ)) ∧
      ([3] : List ℤ).length = 1 := by
  have hrun : benchmark_integer_run (fun m => (m : ℚ)) (fun _ => 1) 2 5 =
      some (1, 3, ([3] : List ℤ)) := by
    norm_num [benchmark_integer_run, benchmark_integer, intOp]
  have h := c6_integer_operation (fun m => (m : ℚ)) (fun _ => 1) 2 5 1 3 [3]
    (fun k => by norm_num) hrun
  exact ⟨hrun, h.2.1⟩

/-- Claim C9: with series_count = 0, run_series executes no trial and
produces no sample (the rate list is empty and the whole outcome does not
depend on the executor), and then fails: statistics.mean of the empty
sample list raises StatisticsError, so no summary is produced in place of
an empty one or one with mean 0. -/
theorem c9_empty_series_raises (trialF trialG : ℕ → TrialResult) :
    run_series_summary trialF 0 = none ∧
      run_series_rates trialF 0 = [] ∧
      run_series_summary trialF 0 = run_series_summary trialG 0 :=
  ⟨rfl, rfl, rfl⟩

/-- Helper: the loop of run_series records exactly one sample per trial. -/
theorem run_series_rates_length (trial : ℕ → TrialResult) (series : ℕ) :
    (run_series_rates trial series).length = series := by
  simp [run_series_rates]

/-- Helper: on a non-empty series, run_series completes and its summary is
the rate list, its exact mean, and the guarded sample standard deviation. -/
theorem run_series_summary_eq (trial : ℕ → TrialResult) (series : ℕ)
    (h : series ≠ 0) :
    run_series_summary trial series =
      some ⟨run_series_rates trial series,
        (run_series_rates trial series).sum / (series : ℚ),
        if 1 < series then statistics_stdev (run_series_rates trial series)
        else 0⟩ := by
  have hlen : (run_series_rates trial series).length = series :=
    run_series_rates_length trial series
  unfold run_series_summary
  simp [statistics_mean, hlen, h]

/-- Claim C5: run_series performs exactly series_count trials and records
exactly that many throughput samples, listed in chronological trial order;
the i-th sample is ops / elapsed of the i-th trial result when its elapsed
time is positive and 0 otherwise. -/
theorem c5_samples_per_trial (trial : ℕ → TrialResult) (series : ℕ) :
    (run_series_rates trial series).length = series ∧
      ∀ i, i < series →
        (run_series_rates trial series).getD i 0 =
          if 0 < (trial i).dur then ((trial i).ops : ℚ) / (trial i).dur
          else 0 := by
  refine ⟨run_series_rates_length trial series, fun i hi => ?_⟩
  unfold run_series_rates
  rw [List.getD_eq_getElem?_getD, List.getElem?_map, List.getElem?_range hi]
  simp [rateOf]

/-- Claim C5, witness: three trials of 7 operations in 2 seconds give the
three chronological samples, each 7/2. -/
theorem c5_samples_per_trial_witness :
    (run_series_rates (fun _ => ⟨7, 2, none⟩) 3).length = 3 ∧
      (run_series_rates (fun _ => ⟨7, 2, none⟩) 3).getD 1 0 = 7 / 2 := by
  have h := c5_samples_per_trial (fun _ => ⟨7, 2, none⟩) 3
  refine ⟨h.1, ?_⟩
  rw [h.2 1 (by norm_num)]
  norm_num

/-- Claim C2: for any completed run_series summary, the reported mean times
the sample count is the sum of the recorded samples (it is their exact
arithmetic mean); for at least two samples the reported standard deviation
is the non-negative square root of the Bessel-corrected sample variance,
i.e. stdev² · (n−1) equals the sum of squared deviations from the mean; for
exactly one sample the standard deviation is exactly 0; and a one-trial
series does complete with a summary rather than failing. -/
theorem c2_mean_and_bessel_stdev (trial : ℕ → TrialResult) (series : ℕ)
    (s : SeriesSummary) (hs : run_series_summary trial series = some s) :
    s.mean * (series : ℚ) = (run_series_rates trial series).sum ∧
      (2 ≤ series →
        s.stdev ^ 2 * ((series : ℝ) - 1) =
            ((((run_series_rates trial series).map
              fun x => (x - s.mean) ^ 2).sum : ℚ) : ℝ) ∧
          0 ≤ s.stdev) ∧
      (series = 1 → s.stdev = 0) ∧
      (run_series_summary trial 1).isSome = true := by
  by_cases h0 : series = 0
  · rw [h0] at hs
    simp [run_series_summary, run_series_rates, statistics_mean] at hs
  · set rs := run_series_rates trial series with hrs
    have hlen : rs.length = series := run_series_rates_length trial series
    have heq := run_series_summary_eq trial series h0
    rw [heq] at hs
    injection hs with hs
    subst hs
    have hcast : ((series : ℚ) : ℝ) = (series : ℝ) := by push_cast; rfl
    refine ⟨?_, ?_, ?_, ?_⟩
    · exact div_mul_cancel₀ rs.sum (by exact_mod_cast h0)
    · intro h2
      have hgt : 1 < series := h2
      have hmean : meanVal rs = rs.sum / (series : ℚ) := by
        rw [meanVal, hlen]
      have hvarEq : sampleVariance rs =
          ((rs.map fun x => (x - rs.sum / (series : ℚ)) ^ 2).sum) /
            ((series : ℚ) - 1) := by
        rw [sampleVariance, hmean, hlen]
      have hsqsum : 0 ≤ (rs.map fun x => (x - rs.sum / (series : ℚ)) ^ 2).sum := by
        apply List.sum_nonneg
        intro y hy
        obtain ⟨x, -, rfl⟩ := List.mem_map.mp hy
        exact sq_nonneg _
      have hden : (0 : ℚ) < (series : ℚ) - 1 := by
        have : (2 : ℚ) ≤ (series : ℚ) := by exact_mod_cast h2
        linarith
      have hvar_nonneg : 0 ≤ sampleVariance rs := by
        rw [hvarEq]
        exact div_nonneg hsqsum (le_of_lt hden)
      constructor
      · simp only [if_pos hgt, statistics_stdev]
        rw [Real.sq_sqrt (by exact_mod_cast hvar_nonneg)]
        rw [hvarEq]
        push_cast
        have hdenR : ((series : ℝ) - 1) ≠ 0 := by
          have : (2 : ℝ) ≤ (series : ℝ) := by exact_mod_cast h2
          linarith
        field_simp
      · simp only [if_pos hgt, statistics_stdev]
        exact Real.sqrt_nonneg _
    · intro h1
      simp [h1]
    · rw [run_series_summary_eq trial 1 one_ne_zero]
      rfl

/-- Claim C2, witness: two trials of 6 operations in 2 seconds; the summary
is samples [3, 3], mean 3 and standard deviation 0, and 3 · 2 is the sample
sum. -/
theorem c2_mean_and_bessel_stdev_witness :
    run_series_summary (fun _ => ⟨6, 2, none⟩) 2 = some ⟨[3, 3], 3, 0⟩ ∧
      (3 : ℚ) * ((2 : ℕ) : ℚ) =
        (run_series_rates (fun _ => ⟨6, 2, none⟩) 2).sum := by
  have hrates : run_series_rates (fun _ => ⟨6, 2, none⟩) 2 = [3, 3] := by
    norm_num [run_series_rates, rateOf, List.range_succ]
  have hs : run_series_summary (fun _ => ⟨6, 2, none⟩) 2 =
      some ⟨[3, 3], 3, 0⟩ := by
    rw [run_series_summary_eq (fun _ => ⟨6, 2, none⟩) 2 (by norm_num), hrates]
    have hvar : sampleVariance ([3, 3] : List ℚ) = 0 := by
      norm_num [sampleVariance, meanVal]
    norm_num [statistics_stdev, hvar]
  have h := c2_mean_and_bessel_stdev (fun _ => ⟨6, 2, none⟩) 2 ⟨[3, 3], 3, 0⟩ hs
  exact ⟨hs, h.1⟩

/-- Claim C7: for every series_count ≥ 1, run_series completes with a
summary computed from the full, chronologically ordered sample list: its
samples field is exactly the rate list of all trials (one per trial), its
mean field is statistics.mean of that complete list, and its stdev field is
statistics.stdev of that complete list when it has at least two samples and
0 otherwise. -/
theorem c7_summary_of_all_trials (trial : ℕ → TrialResult) (series : ℕ)
    (hn : 1 ≤ series) :
    (run_series_summary trial series).isSome = true ∧
      ∀ s, run_series_summary trial series = some s →
        s.samples = run_series_rates trial series ∧
        s.samples.length = series ∧
        statistics_mean s.samples = some s.mean ∧
        s.stdev = if 1 < s.samples.length then statistics_stdev s.samples
          else 0 := by
  have h0 : series ≠ 0 := by omega
  have heq := run_series_summary_eq trial series h0
  have hlen : (run_series_rates trial series).length = series :=
    run_series_rates_length trial series
  constructor
  · rw [heq]; rfl
  · intro s hs
    rw [heq] at hs
    injection hs with hs
    subst hs
    refine ⟨rfl, hlen, ?_, by rw [hlen]⟩
    simp [statistics_mean, hlen, h0]

/-- Claim C7, witness: a one-trial series completes with a summary. -/
theorem c7_summary_of_all_trials_witness :
    (run_series_summary (fun _ => ⟨6, 2, none⟩) 1).isSome = true :=
  (c7_summary_of_all_trials (fun _ => ⟨6, 2, none⟩) 1 (by norm_num)).1

/-- Claim C10: every throughput sample recorded by run_series is
non-negative (the operation count is a natural number and the rate falls
back to 0 unless the elapsed time is positive), and consequently the
reported mean and standard deviation of any completed summary are
non-negative as well. -/
theorem c10_samples_nonneg (trial : ℕ → TrialResult) (series : ℕ) :
    (∀ r ∈ run_series_rates trial series, 0 ≤ r) ∧
      ∀ s, run_series_summary trial series = some s →
        0 ≤ s.mean ∧ 0 ≤ s.stdev := by
  have hmem : ∀ r ∈ run_series_rates trial series, 0 ≤ r := by
    intro r hr
    obtain ⟨i, -, rfl⟩ := List.mem_map.mp hr
    unfold rateOf
    by_cases hdur : 0 < (trial i).dur
    · rw [if_pos hdur]
      exact div_nonneg (Nat.cast_nonneg _) (le_of_lt hdur)
    · rw [if_neg hdur]
  refine ⟨hmem, fun s hs => ?_⟩
  by_cases h0 : series = 0
  · rw [h0] at hs
    simp [run_series_summary, run_series_rates, statistics_mean] at hs
  · have heq := run_series_summary_eq trial series h0
    rw [heq] at hs
    injection hs with hs
    subst hs
    constructor
    · exact div_nonneg (List.sum_nonneg hmem) (Nat.cast_nonneg _)
    · by_cases hgt : 1 < series
      · simp only [if_pos hgt, statistics_stdev]
        exact Real.sqrt_nonneg _
      · simp only [if_neg hgt]
        exact le_refl 0

/-- Claim C1: with worker_count k ≥ 1, both fan-out executors collect
exactly k per-worker operation counts (one per launched worker; the
collected list is some arrival-order permutation of them), return
total_operations equal to the plain sum of those k counts with no division
by worker_count, and echo the given worker_count back as the third
component. For the process variant the queue holds all k reported counts
when the post-join drain starts. -/
theorem c1_fanout_sum_and_echo (k : ℕ) (_hk : 1 ≤ k) (workerOps : ℕ → ℕ)
    (resultsT resultsP : List ℕ) (elapsedT elapsedP : ℚ) (fuel : ℕ)
    (hT : resultsT.Perm ((List.range k).map workerOps))
    (hP : resultsP.Perm ((List.range k).map workerOps))
    (hfuel : resultsP.length < fuel) :
    threaded_benchmark resultsT elapsedT k =
        (((List.range k).map workerOps).sum, elapsedT, k) ∧
      resultsT.length = k ∧
      multiprocess_benchmark fuel resultsP [] elapsedP k =
        some (((List.range k).map workerOps).sum, elapsedP, k) ∧
      resultsP.length = k := by
  have hsumT : resultsT.sum = ((List.range k).map workerOps).sum :=
    hT.sum_eq
  have hsumP : resultsP.sum = ((List.range k).map workerOps).sum :=
    hP.sum_eq
  refine ⟨?_, ?_, ?_, ?_⟩
  · unfold threaded_benchmark
    rw [hsumT]
  · rw [hT.length_eq]
    simp
  · unfold multiprocess_benchmark
    rw [mpDrainLoop_no_latency resultsP fuel 0 hfuel]
    simp [hsumP]
  · rw [hP.length_eq]
    simp

/-- Claim C1, witness: two workers with counts 5 and 6; both executors
total 11 and echo worker_count 2, whatever the arrival order. -/
theorem c1_fanout_sum_and_echo_witness :
    threaded_benchmark [6, 5] 1 2 = (11, 1, 2) ∧
      multiprocess_benchmark 3 [5, 6] [] 2 2 = some (11, 2, 2) := by
  have h := c1_fanout_sum_and_echo 2 (by norm_num) (fun j => j + 5) [6, 5]
    [5, 6] 1 2 3 (by decide) (by decide) (by decide)
  exact ⟨h.1, h.2.2.1⟩

end Bench
